import Mathlib

/-!
Verification development for the LiveDB literature-acquisition pipeline.

The Python source is shallowly embedded: pure helpers become Lean
functions on `List Char` / `String`; the asynchronous tasks become pure
functions over oracles that stand for the network responses they await;
Python exceptions become `Except` errors.  Regular-expression
substitutions from the source are translated into structurally recursive
scanners with the same left-to-right, leftmost-match semantics.
-/

deriving instance DecidableEq for Except

namespace LiveDB

/-- Python whitespace class `\s` (and `str.strip` / `str.split` default)
restricted to the ASCII range handled by the source data. -/
def pyIsSpace (c : Char) : Bool :=
  c = ' ' || c = '\t' || c = '\n' || c = '\r' || c = '\x0b' || c = '\x0c'

/-- The punctuation class `[,.;:!?]` of `OpenAlexDownload.abstract_from_inverted`. -/
def punctChars : List Char := [',', '.', ';', ':', '!', '?']

/-- `re.sub(r"\s+(<targets>)", r"\1", text)`: scan left to right, a maximal
whitespace run immediately followed by a target character is deleted
(the target is kept).  `pend` holds the whitespace run currently open. -/
def reSubWsBeforeAux (targets : List Char) (pend : List Char) : List Char → List Char
  | [] => pend
  | c :: cs =>
    if pyIsSpace c then reSubWsBeforeAux targets (pend ++ [c]) cs
    else if pend ≠ [] ∧ c ∈ targets then c :: reSubWsBeforeAux targets [] cs
    else pend ++ c :: reSubWsBeforeAux targets [] cs

/-- `re.sub(r"\s+([,.;:!?])", r"\1", text)` and `re.sub(r"\s+\)", ")", text)`
are both instances of this scanner. -/
def reSubWsBefore (targets : List Char) (l : List Char) : List Char :=
  reSubWsBeforeAux targets [] l

/-- `re.sub(r"\(\s+", "(", text)`: whitespace directly after `(` is removed.
`skipping` records that the previously emitted character was `(`
(or a whitespace character already swallowed after one). -/
def reSubOpenParenAux (skipping : Bool) : List Char → List Char
  | [] => []
  | c :: cs =>
    if skipping ∧ pyIsSpace c then reSubOpenParenAux true cs
    else if c = '(' then '(' :: reSubOpenParenAux true cs
    else c :: reSubOpenParenAux false cs

def reSubOpenParen (l : List Char) : List Char :=
  reSubOpenParenAux false l

/-- A maximal whitespace run of length ≥ 2 is replaced by a single space
(`re.sub(r"\s{2,}", " ", text)`); a run of length 1 is kept verbatim. -/
def squashRun (pend : List Char) : List Char :=
  if 2 ≤ pend.length then [' '] else pend

def collapseWsAux (pend : List Char) : List Char → List Char
  | [] => squashRun pend
  | c :: cs =>
    if pyIsSpace c then collapseWsAux (pend ++ [c]) cs
    else squashRun pend ++ c :: collapseWsAux [] cs

/-- `re.sub(r"\s{2,}", " ", text)`. -/
def collapseWs (l : List Char) : List Char :=
  collapseWsAux [] l

/-- Python `str.strip()`. -/
def pyStrip (l : List Char) : List Char :=
  ((l.dropWhile pyIsSpace).reverse.dropWhile pyIsSpace).reverse

/-- Python `sep.join(tokens)`. -/
def pyJoin (sep : List Char) : List (List Char) → List Char
  | [] => []
  | [t] => t
  | t :: u :: ts => t ++ (sep ++ pyJoin sep (u :: ts))

/-- Python `str.split()` with no argument: split on whitespace runs,
discarding empty pieces.  `cur` is the word currently being read. -/
def pySplitAux (cur : List Char) : List Char → List (List Char)
  | [] => if cur = [] then [] else [cur]
  | c :: cs =>
    if pyIsSpace c then
      if cur = [] then pySplitAux [] cs else cur :: pySplitAux [] cs
    else pySplitAux (cur ++ [c]) cs

def pySplit (l : List Char) : List (List Char) :=
  pySplitAux [] l

/-- No two adjacent whitespace characters (the texts on which the
whitespace-collapsing substitution is the identity). -/
def noTwoWs : List Char → Bool
  | [] => true
  | [_] => true
  | a :: b :: r => !(pyIsSpace a && pyIsSpace b) && noTwoWs (b :: r)

/-- `tokens = [""] * (max_pos + 1)` followed by
`for token, positions in inv.items(): for p in positions: tokens[p] = token`.
The association list keeps the dict's insertion order, so a later token
overwrites an earlier one at a shared position, exactly as in Python. -/
def buildTokens (inv : List (List Char × List Nat)) (maxPos : Nat) : List (List Char) :=
  inv.foldl (fun arr tp => tp.2.foldl (fun arr p => arr.set p tp.1) arr)
    (List.replicate (maxPos + 1) [])

/-- `OpenAlexDownload.abstract_from_inverted`.  `Option.none` input is the
Python `None`; an empty list is the empty dict (both falsy, hence
`.ok Option.none`).  When the index is non-empty but every position list is
empty, `max(p for pos in inv.values() for p in pos)` raises `ValueError`
(max of an empty sequence), modelled as `.error ()`. -/
def abstract_from_inverted (inv : Option (List (List Char × List Nat))) :
    Except Unit (Option (List Char)) :=
  match inv with
  | Option.none => .ok Option.none
  | Option.some l =>
    if l = [] then .ok Option.none
    else
      match (l.map Prod.snd).flatten with
      | [] => .error ()
      | q :: qs =>
        let maxPos := qs.foldl Nat.max q
        let text := pyStrip (pyJoin [' '] (buildTokens l maxPos))
        let text := reSubWsBefore punctChars text
        let text := reSubOpenParen text
        let text := reSubWsBefore [')'] text
        let text := collapseWs text
        .ok (Option.some text)

/-- The reconstruction pipeline exactly as the claim describes it: build the
positional token array, join with single spaces, then the three punctuation
normalizations and the whitespace collapse.  The claim mentions no
`strip` step, while the source applies `.strip()` right after the join. -/
def claimReconstruct (l : List (List Char × List Nat)) (maxPos : Nat) : List Char :=
  collapseWs (reSubWsBefore [')'] (reSubOpenParen (reSubWsBefore punctChars
    (pyJoin [' '] (buildTokens l maxPos)))))

/-- The claim's pipeline amended with the source's `.strip()` after the join. -/
def claimReconstructStripped (l : List (List Char × List Nat)) (maxPos : Nat) : List Char :=
  collapseWs (reSubWsBefore [')'] (reSubOpenParen (reSubWsBefore punctChars
    (pyStrip (pyJoin [' '] (buildTokens l maxPos))))))

/-! ## Archive extraction (`GetLatestPapers.extract_pdfs_from_tar_async`) -/

/-- One tar entry as seen by the extraction loop: `member.isfile()`, the
entry name, and whether `tar.extractfile(member)` returns a stream
(`hasContent = false` models the `src is None` skip). -/
structure TarMember where
  isfile : Bool
  name : List Char
  hasContent : Bool
deriving DecidableEq

def toLowerL (l : List Char) : List Char := l.map Char.toLower

/-- `str.endswith(suffix)`. -/
def hasSuffixL (l suf : List Char) : Bool := l.reverse.take suf.length == suf.reverse

def startsWithL : List Char → List Char → Bool
  | _, [] => true
  | [], _ :: _ => false
  | a :: l, b :: p => a == b && startsWithL l p

/-- Python substring containment `pat in l`. -/
def containsSub : List Char → List Char → Bool
  | [], pat => pat.isEmpty
  | l@(_ :: rest), pat => startsWithL l pat || containsSub rest pat

/-- `os.path.dirname` for the relative entry names found in PMC tar
packages (no leading slash): everything before the last `/`, or the empty
string when there is no slash. -/
def pyDirname (l : List Char) : List Char :=
  match l.reverse.dropWhile (fun c => c ≠ '/') with
  | [] => []
  | _ :: rest => rest.reverse

def pdfExt : List Char := ['.', 'p', 'd', 'f']

def s00Pat : List Char := ['s', '0', '0']

/-- The synchronous body of `extract_pdfs_from_tar_async`: iterate members,
keep regular files whose lowercased name ends in `.pdf` and whose (raw)
name does not contain `s00`, skip entries without an extractable stream,
and write each to `os.path.join(output_dir, dirname(member.name) + ".pdf")`,
returning the written paths in member order. -/
def extract_pdfs_from_tar (members : List TarMember) (output_dir : List Char) :
    List (List Char) :=
  (members.filter (fun m =>
      m.isfile && hasSuffixL (toLowerL m.name) pdfExt
        && !containsSub m.name s00Pat && m.hasContent)).map
    (fun m => output_dir ++ '/' :: (pyDirname m.name ++ pdfExt))

/-! ## The tenacity retry wrapper -/

/-- Python exceptions relevant to the retry policies: `httpx.RequestError`
(connection/timeout), `httpx.HTTPStatusError` carrying the status code,
and any other exception. -/
inductive PyExc
  | requestError
  | statusError (code : Nat)
  | otherExc
deriving DecidableEq

/-- `@retry(stop=stop_after_attempt(maxA), retry=p)` around an operation
whose `i`-th invocation gives `att i`.  Returns the final outcome together
with the number of attempts actually made.  `fuel` is the number of
retries still allowed after the current attempt. -/
def tenacityAux {ε α : Type} (p : ε → Bool) (att : Nat → Except ε α) :
    Nat → Nat → (Except ε α) × Nat
  | i, fuel =>
    match att i with
    | .ok v => (.ok v, i + 1)
    | .error e =>
      match fuel with
      | 0 => (.error e, i + 1)
      | f + 1 => if p e then tenacityAux p att (i + 1) f else (.error e, i + 1)

def tenacityRun {ε α : Type} (maxA : Nat) (p : ε → Bool) (att : Nat → Except ε α) :
    (Except ε α) × Nat :=
  tenacityAux p att 0 (maxA - 1)

/-- One outbound HTTP try: either the transport layer fails
(`httpx.RequestError`) or a response with some status code arrives. -/
inductive HttpTry
  | transportErr
  | status (code : Nat)
deriving DecidableEq

def isRequestError : PyExc → Bool
  | .requestError => true
  | _ => false

/-- `resp = await client.get(...)` followed by `resp.raise_for_status()`:
a transport failure raises `RequestError`; a 4xx/5xx status raises
`HTTPStatusError`; otherwise the body (stood in for by the code) returns. -/
def httpAttempt (tries : Nat → HttpTry) (i : Nat) : Except PyExc Nat :=
  match tries i with
  | .transportErr => .error .requestError
  | .status c => if 400 ≤ c then .error (.statusError c) else .ok c

/-- `OpenAlexDownload._get_with_retry`: 5 attempts, retried only on
`retry_if_exception_type(httpx.RequestError)`, `reraise=True`. -/
def oa_get_with_retry (tries : Nat → HttpTry) : (Except PyExc Nat) × Nat :=
  tenacityRun 5 isRequestError (httpAttempt tries)

/-- The `@retry(stop=stop_after_attempt(3), wait=wait_exponential(...))`
decorator on `pubmed_esearch` (and the other GetLatestPapers operations):
tenacity with no `retry=` filter retries on every exception. -/
def pubmed_esearch_retry (tries : Nat → HttpTry) : (Except PyExc Nat) × Nat :=
  tenacityRun 3 (fun _ => true) (httpAttempt tries)

/-! ## The PMC full-text resolver (`GetLatestPapers.try_fetch_pmc_fulltext_pdf`)
and its caller (`main.fetch_pmc_fulltext_task`) -/

/-- Python truthiness of an optional string: `None` and `""` are falsy. -/
def optTruthy : Option String → Bool
  | Option.none => false
  | Option.some s => s ≠ ""

/-- The dynamic value stored under the `"path"` key of the resolver's
result dict: `None`, a plain string (the generated-PDF branch), or the
list of per-URL path lists returned by `asyncio.gather`. -/
inductive PathVal
  | nullv
  | strv (s : String)
  | listsv (ll : List (List String))
deriving DecidableEq

def pathTruthy : PathVal → Bool
  | .nullv => false
  | .strv s => s ≠ ""
  | .listsv ll => ll ≠ []

/-- The Python expression `res["path"][0][0]`.  On a list of lists it is
the first file of the first URL; on a string `s` it is `s[0][0]`, i.e. the
one-character string holding the first character (indexing a string yields
a one-character string, and indexing that again yields it back);
an out-of-range index is an `IndexError`, modelled as `Option.none`. -/
def pyIndex00 : PathVal → Option String
  | .nullv => Option.none
  | .strv s => s.toList.head?.map (fun c => String.mk [c])
  | .listsv ll => ll.head?.bind List.head?

/-- The strategies of the resolver, in source order: the OA file-service
lookup, the FTP package download (with tar extraction), and the BioC
full-text fetch rendered into a generated PDF. -/
inductive Strat
  | lookup
  | ftp
  | biocRender
deriving DecidableEq

structure FetchResult where
  path : PathVal
  license : Option String
  is_open_access : Bool
deriving DecidableEq

/-- Result shape of `try_fetch_pmc_fulltext` (the BioC strategy), used here
as an oracle for that call. -/
structure BiocResult where
  full_text : Option String
  license : Option String
  is_open_access : Bool
deriving DecidableEq

/-- `asyncio.gather`: all results, or a raised exception if any call raises. -/
def gatherExcept {α : Type} : List (Except Unit α) → Except Unit (List α)
  | [] => .ok []
  | x :: xs =>
    match x, gatherExcept xs with
    | .ok v, .ok vs => .ok (v :: vs)
    | .error _, _ => .error ()
    | .ok _, .error _ => .error ()

def nullFetchResult : FetchResult := ⟨.nullv, Option.none, false⟩

/-- `try_fetch_pmc_fulltext_pdf`, one invocation.  Oracles: `oaStatus` is
the OA service's HTTP status; `oaParse` gives the license of the first
record and the link hrefs, or the parse exception; `ftpDl url` is the
result of `download_pdf_ftp url` (local paths, or a raised exception);
`bioc` is the result of `try_fetch_pmc_fulltext`.  Besides the result dict
it returns the list of strategies that were actually invoked, in order.
The string formatting `f"{config.PDF_DIR}/{pmcid}.pdf"` renders a missing
pmcid as `"None"`, as Python does. -/
def try_fetch_pmc_fulltext_pdf (pmid pmcid : Option String)
    (oaStatus : Nat) (oaParse : Except Unit (String × List String))
    (ftpDl : String → Except Unit (List String))
    (bioc : BiocResult) (pdfDir : String) : FetchResult × List Strat :=
  if !(optTruthy pmid || optTruthy pmcid) then (nullFetchResult, [])
  else if oaStatus ≠ 200 then (nullFetchResult, [.lookup])
  else
    match oaParse with
    | .error _ => (nullFetchResult, [.lookup])
    | .ok (lic, urls) =>
      if urls = [] then (nullFetchResult, [.lookup])
      else
        match gatherExcept (urls.map ftpDl) with
        | .error _ => (nullFetchResult, [.lookup, .ftp])
        | .ok paths =>
          if (paths.headD []).length < 1 then
            match bioc.full_text with
            | Option.none => (nullFetchResult, [.lookup, .ftp, .biocRender])
            | Option.some _ =>
              let save_dir := pdfDir ++ "/" ++ (pmcid.getD "None") ++ ".pdf"
              (⟨.strv save_dir, bioc.license, bioc.is_open_access⟩,
                [.lookup, .ftp, .biocRender])
          else (⟨.listsv paths, Option.some lic, true⟩, [.lookup, .ftp])

/-! ## The flow records and tasks (`main.py`) -/

/-- The fields of one bibliographic record dict that the flow reads or
writes.  Fields absent from the dict are `Option.none`. -/
structure Record where
  pmid : Option String := Option.none
  pmcid : Option String := Option.none
  title : Option String := Option.none
  abstract : Option String := Option.none
  final_pred : Option String := Option.none
  fulltext_path : Option String := Option.none
deriving DecidableEq

/-- `classify_record_task`: builds `title + "\n" + abstract`, asks the
classifier (oracle `cls` returns the `S_AB_pred` label, if present), and
sets `final_pred` to `"no"` iff that label is `"no"`. -/
def classify_record_task (cls : String → Option String) (r : Record) : Record :=
  let text := (r.title.getD "") ++ "\n" ++ (r.abstract.getD "")
  let fp := if cls text = Option.some "no" then "no" else "yes"
  { r with final_pred := Option.some fp }

/-- `download_openalex_pdf_task`: stores the result of
`download_pdf_async` (a path, or `None`) into `fulltext_path`. -/
def download_openalex_pdf_task (dl : Record → Option String) (r : Record) : Record :=
  { r with fulltext_path := dl r }

/-- `fetch_pmc_fulltext_task`: `if res and res.get("path"):
rec["fulltext_path"] = res["path"][0][0]`; the record is returned either
way.  An `IndexError` from the double subscript is `.error`. -/
def fetch_pmc_fulltext_task (r : Record) (res : FetchResult) : Except Unit Record :=
  if pathTruthy res.path then
    match pyIndex00 res.path with
    | Option.some p => .ok { r with fulltext_path := Option.some p }
    | Option.none => .error ()
  else .ok r

/-- `r.get("abstract") and r.get("title")` — both present and non-empty. -/
def recTruthyTA (r : Record) : Bool := optTruthy r.abstract && optTruthy r.title

/-- `asyncio.gather` over the per-record `fetch_pmc_fulltext_task` calls:
all enriched records, or a raised exception if any task raises. -/
def gatherFetch (ft : Record → FetchResult) : List Record → Except Unit (List Record)
  | [] => .ok []
  | r :: rs =>
    match fetch_pmc_fulltext_task r (ft r), gatherFetch ft rs with
    | .ok r2, .ok rs2 => .ok (r2 :: rs2)
    | .error _, _ => .error ()
    | .ok _, .error _ => .error ()

/-- What `livedb_flow` hands to ingestion and reports. -/
structure FlowOut where
  all_included : List Record
  total_fulltexts : Nat
  total_records : Nat
deriving DecidableEq

/-- `main.livedb_flow` after the two search tasks returned
`openalex_records` and (via efetch) `pmc_records`.  `cls`, `dl` and `ft`
are the oracles for the classifier, `download_pdf_async`, and
`try_fetch_pmc_fulltext_pdf` respectively.  The flow ingests
`all_included` and returns the aggregate counts. -/
def livedb_flow (openalex_records pmc_records : List Record)
    (cls : String → Option String) (dl : Record → Option String)
    (ft : Record → FetchResult) : Except Unit FlowOut :=
  let classified_openalex := (openalex_records.filter recTruthyTA).map (classify_record_task cls)
  let included_openalex := classified_openalex.filter (fun r => r.final_pred == Option.some "yes")
  let downloaded_openalex := included_openalex.map (download_openalex_pdf_task dl)
  let not_included_from_oa := downloaded_openalex.filter (fun r => !optTruthy r.fulltext_path)
  let classified_pmc := (pmc_records.filter recTruthyTA).map (classify_record_task cls)
  let combined := classified_pmc ++ not_included_from_oa
  let included := combined.filter (fun r => r.final_pred == Option.some "yes")
  match gatherFetch ft included with
  | .error _ => .error ()
  | .ok included_with_ft =>
    let all_included := included_with_ft ++ downloaded_openalex.filter (fun r => optTruthy r.fulltext_path)
    .ok ⟨all_included,
      (all_included.filter (fun r => optTruthy r.fulltext_path)).length,
      all_included.length⟩

/-! ## The OpenAlex PDF downloader (`OpenAlexDownload.download_pdf_async`) -/

/-- Observable outcome of one `download_pdf_async` attempt: the returned
value (or escaped exception) plus whether the browser context and the
browser were closed. -/
structure DlTrace where
  result : Except Unit (Option String)
  contextClosed : Bool
  browserClosed : Bool

/-- One attempt of `download_pdf_async` over oracles for its awaited
effects: the landing-page GET issued before the `try` (`landing`), the
whole direct-HTTP block (`direct`, `.ok` meaning the PDF was written and
`save_path` returned), the browser/context setup inside the `except`
block (`launch`), and the browser fetch logic inside the inner `try`
(`browserFetch`).  A failure of the inner `try` is logged and swallowed;
the `finally` closes the context and the browser on every exit from the
inner `try`; the function then falls off the end, returning `None`. -/
def download_pdf_attempt (landing direct launch browserFetch : Except Unit Unit)
    (save_path : String) : DlTrace :=
  match landing with
  | .error _ => ⟨.error (), false, false⟩
  | .ok _ =>
    match direct with
    | .ok _ => ⟨.ok (Option.some save_path), false, false⟩
    | .error _ =>
      match launch with
      | .error _ => ⟨.error (), false, false⟩
      | .ok _ =>
        match browserFetch with
        | .ok _ => ⟨.ok (Option.some save_path), true, true⟩
        | .error _ => ⟨.ok Option.none, true, true⟩

/-- `download_pdf_async` under its
`@retry(stop=stop_after_attempt(3), ..., reraise=True)` decorator, which
has no `retry=` filter and hence retries every exception; a returned
value (even `None`) ends the loop. -/
def download_pdf_async (landing direct launch browserFetch : Nat → Except Unit Unit)
    (save_path : String) : (Except Unit (Option String)) × Nat :=
  tenacityRun 3 (fun _ => true)
    (fun i => (download_pdf_attempt (landing i) (direct i) (launch i) (browserFetch i)
      save_path).result)

/-- FTP oracle of the C2 counterexample: the first link's package extracts
zero PDFs while the second link's download yields one local file. -/
def c2FtpOracle : String → Except Unit (List String) :=
  fun u => if u = "u2" then .ok ["pdfs/f2.pdf"] else .ok []

/-- The input record of the C1 witness scenario. -/
def c1InRecord : Record := { title := Option.some "T", abstract := Option.some "A" }

/-- The same record as it appears in the flow output of the C1 witness. -/
def c1OutRecord : Record := { c1InRecord with final_pred := Option.some "yes" }

/-! ## Helper lemmas -/

theorem fetch_preserves_fields {a : Record} {res : FetchResult} {x : Record}
    (h : fetch_pmc_fulltext_task a res = .ok x) :
    x.final_pred = a.final_pred ∧ x.title = a.title ∧ x.abstract = a.abstract := by
  unfold fetch_pmc_fulltext_task at h
  split at h
  · split at h
    · injection h with h1
      subst h1
      exact ⟨rfl, rfl, rfl⟩
    · exact Except.noConfusion h
  · injection h with h1
    subst h1
    exact ⟨rfl, rfl, rfl⟩

theorem gatherFetch_mem {ft : Record → FetchResult} :
    ∀ {l l2 : List Record}, gatherFetch ft l = .ok l2 →
      ∀ x ∈ l2, ∃ a ∈ l, fetch_pmc_fulltext_task a (ft a) = .ok x := by
  intro l
  induction l with
  | nil =>
    intro l2 h x hx
    injection h with h1
    subst h1
    exact absurd hx (by simp)
  | cons r rs ih =>
    intro l2 h x hx
    unfold gatherFetch at h
    split at h
    · rename_i r2 rs2 heq1 heq2
      injection h with h1
      subst h1
      rcases List.mem_cons.mp hx with rfl | hx2
      · exact ⟨r, List.mem_cons_self r rs, heq1⟩
      · obtain ⟨a, ha, hfa⟩ := ih heq2 x hx2
        exact ⟨a, List.mem_cons_of_mem r ha, hfa⟩
    · exact Except.noConfusion h
    · exact Except.noConfusion h

theorem classified_props (cls : String → Option String) (l : List Record) :
    ∀ r ∈ (l.filter recTruthyTA).map (classify_record_task cls),
      optTruthy r.title = true ∧ optTruthy r.abstract = true ∧
      (r.final_pred = Option.some "no" ∨ r.final_pred = Option.some "yes") := by
  intro r hr
  obtain ⟨b, hb, rfl⟩ := List.mem_map.mp hr
  have hbt : recTruthyTA b = true := (List.mem_filter.mp hb).2
  unfold recTruthyTA at hbt
  rw [Bool.and_eq_true] at hbt
  simp only [classify_record_task]
  refine ⟨hbt.2, hbt.1, ?_⟩
  split
  · exact Or.inl rfl
  · exact Or.inr rfl

theorem downloaded_props (cls : String → Option String) (dl : Record → Option String)
    (oa : List Record) :
    ∀ r ∈ (((oa.filter recTruthyTA).map (classify_record_task cls)).filter
        (fun r => r.final_pred == Option.some "yes")).map (download_openalex_pdf_task dl),
      r.final_pred = Option.some "yes" ∧ optTruthy r.title = true ∧
      optTruthy r.abstract = true := by
  intro r hr
  obtain ⟨b, hb, rfl⟩ := List.mem_map.mp hr
  have hyes : b.final_pred = Option.some "yes" := by
    have h2 := (List.mem_filter.mp hb).2
    simpa using h2
  have hprops := classified_props cls oa b (List.mem_filter.mp hb).1
  simp only [download_openalex_pdf_task]
  exact ⟨hyes, hprops.1, hprops.2.1⟩

theorem reSubWsBeforeAux_no_target (targets : List Char) :
    ∀ (l pend : List Char), (∀ c ∈ l, c ∉ targets) →
      reSubWsBeforeAux targets pend l = pend ++ l := by
  intro l
  induction l with
  | nil =>
    intro pend _
    simp [reSubWsBeforeAux]
  | cons c cs ih =>
    intro pend h
    unfold reSubWsBeforeAux
    by_cases hws : pyIsSpace c = true
    · rw [if_pos hws, ih (pend ++ [c]) (fun d hd => h d (List.mem_cons_of_mem c hd))]
      simp
    · rw [if_neg hws,
        if_neg (fun hand => h c (List.mem_cons_self c cs) hand.2),
        ih [] (fun d hd => h d (List.mem_cons_of_mem c hd))]
      rfl

theorem reSubWsBefore_id (targets l : List Char) (h : ∀ c ∈ l, c ∉ targets) :
    reSubWsBefore targets l = l :=
  reSubWsBeforeAux_no_target targets l [] h

theorem reSubOpenParenAux_no_paren :
    ∀ l : List Char, '(' ∉ l → reSubOpenParenAux false l = l := by
  intro l
  induction l with
  | nil => intro _; rfl
  | cons c cs ih =>
    intro h
    unfold reSubOpenParenAux
    rw [if_neg (fun hand => by simp at hand),
      if_neg (fun hc => h (by rw [← hc]; exact List.mem_cons_self c cs)),
      ih (fun hc => h (List.mem_cons_of_mem c hc))]

theorem reSubOpenParen_id (l : List Char) (h : '(' ∉ l) : reSubOpenParen l = l :=
  reSubOpenParenAux_no_paren l h

theorem collapseWsAux_no_double :
    ∀ (l pend : List Char), noTwoWs l = true → pend.length ≤ 1 →
      (pend = [] ∨ ∀ c, l.head? = Option.some c → pyIsSpace c = false) →
      collapseWsAux pend l = pend ++ l := by
  intro l
  induction l with
  | nil =>
    intro pend _ hlen _
    unfold collapseWsAux squashRun
    rw [if_neg (by omega)]
    simp
  | cons c cs ih =>
    intro pend hl hlen hb
    have hcs : noTwoWs cs = true := by
      cases cs with
      | nil => rfl
      | cons d r =>
        unfold noTwoWs at hl
        exact (Bool.and_eq_true_iff.mp hl).2
    unfold collapseWsAux
    by_cases hws : pyIsSpace c = true
    · have hpe : pend = [] := by
        rcases hb with rfl | hhead
        · rfl
        · exact absurd (hhead c rfl) (by simp [hws])
      subst hpe
      rw [if_pos hws]
      have hnext : ∀ d, cs.head? = Option.some d → pyIsSpace d = false := by
        intro d hd
        cases cs with
        | nil => cases hd
        | cons d0 r =>
          injection hd with hd0
          subst hd0
          unfold noTwoWs at hl
          have h1 := (Bool.and_eq_true_iff.mp hl).1
          simpa [hws] using h1
      rw [show ([] : List Char) ++ [c] = [c] from rfl,
        ih [c] hcs (by simp) (Or.inr hnext)]
      rfl
    · rw [if_neg hws, ih [] hcs (by simp) (Or.inl rfl)]
      unfold squashRun
      rw [if_neg (by omega)]
      rfl

theorem collapseWs_id (l : List Char) (h : noTwoWs l = true) : collapseWs l = l :=
  collapseWsAux_no_double l [] h (by simp) (Or.inl rfl)

theorem noTwoWs_append :
    ∀ (t y : List Char), (∀ c ∈ t, pyIsSpace c = false) → noTwoWs y = true →
      noTwoWs (t ++ y) = true := by
  intro t
  induction t with
  | nil =>
    intro y _ hy
    simpa using hy
  | cons a t2 ih =>
    intro y h hy
    have ht : noTwoWs (t2 ++ y) = true :=
      ih y (fun c hc => h c (List.mem_cons_of_mem a hc)) hy
    have ha : pyIsSpace a = false := h a (List.mem_cons_self a t2)
    show noTwoWs (a :: (t2 ++ y)) = true
    cases htl : t2 ++ y with
    | nil => rfl
    | cons b r =>
      unfold noTwoWs
      rw [Bool.and_eq_true]
      refine ⟨by simp [ha], ?_⟩
      rw [htl] at ht
      exact ht

theorem pyJoin_head (t : List Char) (ts : List (List Char)) (hne : t ≠ []) :
    (pyJoin [' '] (t :: ts)).head? = t.head? := by
  cases ts with
  | nil => rfl
  | cons u ts2 =>
    show (t ++ ([' '] ++ pyJoin [' '] (u :: ts2))).head? = t.head?
    rw [List.head?_append]
    cases t with
    | nil => exact absurd rfl hne
    | cons a t2 => rfl

theorem mem_pyJoin (sep : List Char) :
    ∀ (toks : List (List Char)) (c : Char), c ∈ pyJoin sep toks →
      c ∈ sep ∨ ∃ t ∈ toks, c ∈ t := by
  intro toks
  induction toks with
  | nil =>
    intro c hc
    cases hc
  | cons t ts ih =>
    intro c hc
    cases ts with
    | nil => exact Or.inr ⟨t, by simp, hc⟩
    | cons u ts2 =>
      rw [show pyJoin sep (t :: u :: ts2) = t ++ (sep ++ pyJoin sep (u :: ts2)) from rfl] at hc
      rcases List.mem_append.mp hc with h1 | h2
      · exact Or.inr ⟨t, by simp, h1⟩
      · rcases List.mem_append.mp h2 with h3 | h4
        · exact Or.inl h3
        · rcases ih c h4 with h5 | ⟨t2, ht2, hc2⟩
          · exact Or.inl h5
          · exact Or.inr ⟨t2, List.mem_cons_of_mem t ht2, hc2⟩

theorem pyJoin_noTwoWs :
    ∀ toks : List (List Char), (∀ t ∈ toks, t ≠ [] ∧ ∀ c ∈ t, pyIsSpace c = false) →
      noTwoWs (pyJoin [' '] toks) = true := by
  intro toks
  induction toks with
  | nil => intro _; rfl
  | cons t ts ih =>
    intro h
    cases ts with
    | nil =>
      have h2 := noTwoWs_append t [] (fun c hc => (h t (by simp)).2 c hc) rfl
      simpa using h2
    | cons u ts2 =>
      show noTwoWs (t ++ ([' '] ++ pyJoin [' '] (u :: ts2))) = true
      apply noTwoWs_append t _ (fun c hc => (h t (by simp)).2 c hc)
      have hJ : noTwoWs (pyJoin [' '] (u :: ts2)) = true :=
        ih (fun x hx => h x (List.mem_cons_of_mem t hx))
      have hhead := pyJoin_head u ts2 (h u (by simp)).1
      show noTwoWs (' ' :: pyJoin [' '] (u :: ts2)) = true
      cases hJcase : pyJoin [' '] (u :: ts2) with
      | nil => rfl
      | cons j0 jr =>
        rw [hJcase] at hhead hJ
        have hj0mem : j0 ∈ u := by
          apply List.mem_of_mem_head?
          rw [← hhead]
          rfl
        have hj0 : pyIsSpace j0 = false := (h u (by simp)).2 j0 hj0mem
        unfold noTwoWs
        rw [Bool.and_eq_true]
        exact ⟨by simp [hj0], hJ⟩

theorem pyJoin_getLast_nonws :
    ∀ toks : List (List Char), (∀ t ∈ toks, t ≠ [] ∧ ∀ c ∈ t, pyIsSpace c = false) →
      ∀ c, (pyJoin [' '] toks).getLast? = Option.some c → pyIsSpace c = false := by
  intro toks
  induction toks with
  | nil =>
    intro _ c hc
    cases hc
  | cons t ts ih =>
    intro h c hc
    cases ts with
    | nil =>
      have hcm : c ∈ t := List.mem_of_mem_getLast? (by rw [show pyJoin [' '] [t] = t from rfl] at hc; rw [hc]; rfl)
      exact (h t (by simp)).2 c hcm
    | cons u ts2 =>
      rw [show pyJoin [' '] (t :: u :: ts2) = t ++ (' ' :: pyJoin [' '] (u :: ts2)) from rfl,
        List.getLast?_append] at hc
      have hJne : pyJoin [' '] (u :: ts2) ≠ [] := by
        intro hnil
        have hh := pyJoin_head u ts2 (h u (by simp)).1
        rw [hnil] at hh
        cases hu : u with
        | nil => exact (h u (by simp)).1 hu
        | cons u0 ur =>
          rw [hu] at hh
          cases hh
      cases hJcase : pyJoin [' '] (u :: ts2) with
      | nil => exact absurd hJcase hJne
      | cons j0 jr =>
        rw [hJcase, List.getLast?_cons_cons] at hc
        have hlast : (j0 :: jr).getLast? = Option.some c := by
          cases hg : (j0 :: jr).getLast? with
          | none => rw [List.getLast?_eq_none_iff] at hg; cases hg
          | some d =>
            rw [hg, Option.or_some] at hc
            exact hc
        have := ih (fun x hx => h x (List.mem_cons_of_mem t hx)) c
        rw [hJcase] at this
        exact this hlast

theorem pyStrip_id (l : List Char)
    (hh : ∀ c, l.head? = Option.some c → pyIsSpace c = false)
    (hl : ∀ c, l.getLast? = Option.some c → pyIsSpace c = false) : pyStrip l = l := by
  unfold pyStrip
  have h1 : l.dropWhile pyIsSpace = l := by
    cases hc : l with
    | nil => rfl
    | cons a l2 =>
      rw [List.dropWhile_cons, if_neg]
      rw [hh a (by rw [hc]; rfl)]
      simp
  rw [h1]
  have h2 : l.reverse.dropWhile pyIsSpace = l.reverse := by
    cases hc : l.reverse with
    | nil => rfl
    | cons a l2 =>
      rw [List.dropWhile_cons, if_neg]
      have ha : l.getLast? = Option.some a := by
        rw [← List.head?_reverse, hc]
        rfl
      rw [hl a ha]
      simp
  rw [h2, List.reverse_reverse]

theorem pySplitAux_append_word :
    ∀ (t cur r : List Char), (∀ c ∈ t, pyIsSpace c = false) →
      pySplitAux cur (t ++ r) = pySplitAux (cur ++ t) r := by
  intro t
  induction t with
  | nil =>
    intro cur r _
    simp
  | cons c t2 ih =>
    intro cur r h
    have hstep : pySplitAux cur (c :: (t2 ++ r)) = pySplitAux (cur ++ [c]) (t2 ++ r) := by
      show (if pyIsSpace c = true then
          if cur = [] then pySplitAux [] (t2 ++ r) else cur :: pySplitAux [] (t2 ++ r)
        else pySplitAux (cur ++ [c]) (t2 ++ r)) = _
      rw [if_neg (by rw [h c (List.mem_cons_self c t2)]; simp)]
    show pySplitAux cur (c :: (t2 ++ r)) = pySplitAux (cur ++ (c :: t2)) r
    rw [hstep, ih (cur ++ [c]) r (fun d hd => h d (List.mem_cons_of_mem c hd)),
      List.append_assoc]
    rfl

theorem pySplit_pyJoin :
    ∀ toks : List (List Char), (∀ t ∈ toks, t ≠ [] ∧ ∀ c ∈ t, pyIsSpace c = false) →
      pySplit (pyJoin [' '] toks) = toks := by
  intro toks
  induction toks with
  | nil => intro _; rfl
  | cons t ts ih =>
    intro h
    cases ts with
    | nil =>
      show pySplitAux [] (pyJoin [' '] [t]) = [t]
      rw [show pyJoin [' '] [t] = t from rfl,
        show (t : List Char) = t ++ [] from (List.append_nil t).symm,
        pySplitAux_append_word t [] [] (fun c hc => (h t (by simp)).2 c (by simpa using hc))]
      unfold pySplitAux
      rw [if_neg (by simpa using (h t (by simp)).1)]
      simp
    | cons u ts2 =>
      show pySplitAux [] (t ++ ([' '] ++ pyJoin [' '] (u :: ts2))) = t :: u :: ts2
      rw [pySplitAux_append_word t [] _ (h t (by simp)).2]
      show pySplitAux t (' ' :: pyJoin [' '] (u :: ts2)) = t :: u :: ts2
      unfold pySplitAux
      rw [if_pos (show pyIsSpace ' ' = true from rfl),
        if_neg (by simpa using (h t (by simp)).1)]
      show t :: pySplit (pyJoin [' '] (u :: ts2)) = t :: u :: ts2
      rw [ih (fun x hx => h x (List.mem_cons_of_mem t hx))]

/-! ## Claim theorems -/

/-- C1 counterexample: an OpenAlex record with an abstract but no title is
discovered, excluded from classification, and then entirely absent from
the merged set handed to ingestion (which is empty here) — it does not
appear with a null relevance verdict and null full-text path as the claim
requires. -/
theorem c1_counterexample :
    livedb_flow [{ abstract := Option.some "A" }] [] (fun _ => Option.some "yes")
      (fun _ => Option.none) (fun _ => nullFetchResult) = .ok ⟨[], 0, 0⟩ ∧
    ({ abstract := Option.some "A" } : Record) ∈
      ([{ abstract := Option.some "A" }] : List Record) := by decide

/-- C1 amended: records lacking a (non-empty) title or abstract are
excluded from classification AND dropped from the merged output set, as
are records classified not relevant: every record in the set handed to
ingestion carries the verdict `"yes"` and has a non-empty title and
abstract.  (The flow itself returns only the aggregate counts.) -/
theorem c1_amended_only_relevant_in_output (oa pmc : List Record)
    (cls : String → Option String) (dl : Record → Option String) (ft : Record → FetchResult)
    (out : FlowOut) (h : livedb_flow oa pmc cls dl ft = .ok out) :
    ∀ r ∈ out.all_included, r.final_pred = Option.some "yes" ∧
      optTruthy r.title = true ∧ optTruthy r.abstract = true := by
  simp only [livedb_flow] at h
  split at h
  · exact absurd h (by simp)
  · rename_i included_with_ft heq
    injection h with h1
    subst h1
    intro r hr
    rcases List.mem_append.mp hr with hr1 | hr2
    · obtain ⟨a, ha, hfa⟩ := gatherFetch_mem heq r hr1
      have hyes : a.final_pred = Option.some "yes" := by
        have h2 := (List.mem_filter.mp ha).2
        simpa using h2
      have hmem := (List.mem_filter.mp ha).1
      have haprops : optTruthy a.title = true ∧ optTruthy a.abstract = true := by
        rcases List.mem_append.mp hmem with hA | hB
        · have hc := classified_props cls pmc a hA
          exact ⟨hc.1, hc.2.1⟩
        · have hd := downloaded_props cls dl oa a (List.mem_filter.mp hB).1
          exact ⟨hd.2.1, hd.2.2⟩
      obtain ⟨hp1, hp2, hp3⟩ := fetch_preserves_fields hfa
      rw [hp1, hp2, hp3]
      exact ⟨hyes, haprops.1, haprops.2⟩
    · exact downloaded_props cls dl oa r (List.mem_filter.mp hr2).1

/-- Witness for C1: a PMC record with title and abstract, classified
relevant, is in the output with verdict `"yes"`. -/
theorem c1_witness :
    c1OutRecord.final_pred = Option.some "yes" ∧
    optTruthy c1OutRecord.title = true ∧ optTruthy c1OutRecord.abstract = true :=
  c1_amended_only_relevant_in_output [] [c1InRecord]
    (fun _ => Option.none) (fun _ => Option.none) (fun _ => nullFetchResult)
    ⟨[c1OutRecord], 0, 1⟩ (by decide) _ (by decide)

/-- C10: for every non-empty inverted-index dictionary in which every
token's position list is empty, `abstract_from_inverted` raises
(`max()` of an empty sequence) instead of returning a null abstract. -/
theorem c10_empty_positions_error (l : List (List Char × List Nat))
    (hne : l ≠ []) (hall : ∀ tp ∈ l, tp.2 = ([] : List Nat)) :
    abstract_from_inverted (Option.some l) = .error () := by
  have hflat : (l.map Prod.snd).flatten = [] := by
    rw [List.flatten_eq_nil_iff]
    intro x hx
    obtain ⟨tp, htp, rfl⟩ := List.mem_map.mp hx
    exact hall tp htp
  simp only [abstract_from_inverted]
  rw [if_neg hne, hflat]

/-- Witness for C10: the singleton index mapping `"a"` to no positions. -/
theorem c10_witness :
    abstract_from_inverted (Option.some [(['a'], ([] : List Nat))]) = .error () :=
  c10_empty_positions_error [(['a'], [])] (by decide) (by decide)

/-- C3 counterexample: on the index placing `"a"` at position 1 alone, the
source returns `"a"` (it strips the leading space produced by the empty
slot 0 before the punctuation passes), while the pipeline exactly as the
claim describes it — with no strip step — yields `" a"`. -/
theorem c3_counterexample :
    abstract_from_inverted (Option.some [(['a'], [1])]) = .ok (Option.some ['a']) ∧
    claimReconstruct [(['a'], [1])] 1 = [' ', 'a'] ∧
    ([' ', 'a'] : List Char) ≠ ['a'] := by decide

/-- C3 amended: the reconstruction builds the positional token array,
joins with single spaces, STRIPS leading and trailing whitespace, then
removes whitespace before `,.;:!?`, after `(` and before `)`, and
collapses repeated whitespace; an absent or empty index yields null. -/
theorem c3_amended_reconstruction (l : List (List Char × List Nat)) (q : Nat) (qs : List Nat)
    (hne : l ≠ []) (hflat : (l.map Prod.snd).flatten = q :: qs) :
    abstract_from_inverted (Option.some l) =
      .ok (Option.some (claimReconstructStripped l (qs.foldl Nat.max q))) ∧
    abstract_from_inverted Option.none = .ok Option.none ∧
    abstract_from_inverted (Option.some []) = .ok Option.none := by
  refine ⟨?_, rfl, rfl⟩
  simp only [abstract_from_inverted, claimReconstructStripped]
  rw [if_neg hne, hflat]

/-- Witness for C3: a two-token index. -/
theorem c3_witness :
    abstract_from_inverted (Option.some [(['h', 'i'], [0]), ([','], [1])]) =
      .ok (Option.some (claimReconstructStripped [(['h', 'i'], [0]), ([','], [1])] 1)) :=
  (c3_amended_reconstruction [(['h', 'i'], [0]), ([','], [1])] 0 [1] (by decide) (by decide)).1

/-- C4 counterexample: for the index placing `"a"` at position 0 and `","`
at position 1, the reconstruction is `"a,"` (the punctuation pass removes
the separating space), so splitting on whitespace yields the single token
`"a,"` — not the original tokens `"a"` and `","` at positions 0 and 1. -/
theorem c4_counterexample :
    abstract_from_inverted (Option.some [(['a'], [0]), ([','], [1])]) =
      .ok (Option.some ['a', ',']) ∧
    pySplit ['a', ','] = [['a', ',']] ∧
    buildTokens [(['a'], [0]), ([','], [1])] 1 = [['a'], [',']] ∧
    ([['a', ',']] : List (List Char)) ≠ [['a'], [',']] := by decide

/-- C4 amended: for every non-empty index with at least one position whose
positional token array has only non-empty tokens free of whitespace, the
punctuation characters `,.;:!?` and parentheses, splitting the
reconstructed text on whitespace recovers exactly the positional token
array — each token at its original position. -/
theorem c4_amended_roundtrip (l : List (List Char × List Nat)) (q : Nat) (qs : List Nat)
    (hne : l ≠ []) (hflat : (l.map Prod.snd).flatten = q :: qs)
    (htoks : ∀ t ∈ buildTokens l (qs.foldl Nat.max q), t ≠ [] ∧
      ∀ c ∈ t, pyIsSpace c = false ∧ c ∉ punctChars ∧ c ≠ '(' ∧ c ≠ ')') :
    ∃ txt, abstract_from_inverted (Option.some l) = .ok (Option.some txt) ∧
      pySplit txt = buildTokens l (qs.foldl Nat.max q) := by
  have hgood : ∀ t ∈ buildTokens l (qs.foldl Nat.max q), t ≠ [] ∧
      ∀ c ∈ t, pyIsSpace c = false :=
    fun t ht => ⟨(htoks t ht).1, fun c hc => ((htoks t ht).2 c hc).1⟩
  have hmem : ∀ c ∈ pyJoin [' '] (buildTokens l (qs.foldl Nat.max q)),
      c = ' ' ∨ ∃ t ∈ buildTokens l (qs.foldl Nat.max q), c ∈ t := by
    intro c hc
    rcases mem_pyJoin [' '] (buildTokens l (qs.foldl Nat.max q)) c hc with h1 | h2
    · left
      simpa using h1
    · right
      exact h2
  have hnopunct : ∀ c ∈ pyJoin [' '] (buildTokens l (qs.foldl Nat.max q)),
      c ∉ punctChars := by
    intro c hc
    rcases hmem c hc with rfl | ⟨t, ht, hct⟩
    · decide
    · exact ((htoks t ht).2 c hct).2.1
  have hnoparen : '(' ∉ pyJoin [' '] (buildTokens l (qs.foldl Nat.max q)) := by
    intro habs
    rcases hmem '(' habs with h1 | ⟨t, ht, hct⟩
    · exact absurd h1 (by decide)
    · exact ((htoks t ht).2 '(' hct).2.2.1 rfl
  have hnoclose : ∀ c ∈ pyJoin [' '] (buildTokens l (qs.foldl Nat.max q)),
      c ∉ ([')'] : List Char) := by
    intro c hc habs
    have hcc : c = ')' := by simpa using habs
    rcases hmem c hc with h1 | ⟨t, ht, hct⟩
    · rw [hcc] at h1
      exact absurd h1 (by decide)
    · exact ((htoks t ht).2 c hct).2.2.2 hcc
  have hhead : ∀ c, (pyJoin [' '] (buildTokens l (qs.foldl Nat.max q))).head? =
      Option.some c → pyIsSpace c = false := by
    intro c hc
    cases htk : buildTokens l (qs.foldl Nat.max q) with
    | nil =>
      rw [htk] at hc
      cases hc
    | cons t ts =>
      rw [htk, pyJoin_head t ts (hgood t (by rw [htk]; exact List.mem_cons_self t ts)).1] at hc
      exact (hgood t (by rw [htk]; exact List.mem_cons_self t ts)).2 c
        (List.mem_of_mem_head? (by rw [hc]; rfl))
  have hlast : ∀ c, (pyJoin [' '] (buildTokens l (qs.foldl Nat.max q))).getLast? =
      Option.some c → pyIsSpace c = false :=
    pyJoin_getLast_nonws (buildTokens l (qs.foldl Nat.max q)) hgood
  have hno2 : noTwoWs (pyJoin [' '] (buildTokens l (qs.foldl Nat.max q))) = true :=
    pyJoin_noTwoWs (buildTokens l (qs.foldl Nat.max q)) hgood
  refine ⟨pyJoin [' '] (buildTokens l (qs.foldl Nat.max q)), ?_, ?_⟩
  · have h0 : abstract_from_inverted (Option.some l) =
        .ok (Option.some (collapseWs (reSubWsBefore [')'] (reSubOpenParen
          (reSubWsBefore punctChars (pyStrip (pyJoin [' ']
            (buildTokens l (qs.foldl Nat.max q))))))))) := by
      simp only [abstract_from_inverted]
      rw [if_neg hne, hflat]
    rw [h0, pyStrip_id _ hhead hlast,
      reSubWsBefore_id punctChars _ hnopunct,
      reSubOpenParen_id _ hnoparen,
      reSubWsBefore_id [')'] _ hnoclose,
      collapseWs_id _ hno2]
  · exact pySplit_pyJoin (buildTokens l (qs.foldl Nat.max q)) hgood

/-- Witness for C4: the index placing `"ab"` at position 0 and `"c"` at
position 1 round-trips: splitting the reconstruction recovers both tokens
at their positions. -/
theorem c4_witness :
    ∃ txt, abstract_from_inverted (Option.some [(['a', 'b'], [0]), (['c'], [1])]) =
      .ok (Option.some txt) ∧
      pySplit txt = buildTokens [(['a', 'b'], [0]), (['c'], [1])] (List.foldl Nat.max 0 [1]) :=
  c4_amended_roundtrip [(['a', 'b'], [0]), (['c'], [1])] 0 [1]
    (by decide) (by decide) (by decide)

/-- C5 counterexample: `pubmed_esearch` is decorated with
`@retry(stop=stop_after_attempt(3))` and no `retry=` filter, so a 404
response (`raise_for_status`) is retried like a transient failure: the
operation makes 3 attempts, not the 1 the claim requires. -/
theorem c5_counterexample :
    pubmed_esearch_retry (fun _ => .status 404) = (.error (.statusError 404), 3) ∧
    (3 : Nat) ≠ 1 := by decide

/-- C5 amended: in the OpenAlex client's `_get_with_retry` any HTTP status
error — 4xx and 5xx alike — terminates on the attempt where it occurs with
no further retries; only connection-level `httpx.RequestError`s are
retried (up to 5 attempts).  The PubMed-side retry decorators instead
retry every exception, so a 404 there is re-attempted up to the
3-attempt ceiling. -/
theorem c5_amended_retry_classification
    (tries tries2 tries3 : Nat → HttpTry) (c : Nat)
    (h1 : tries 0 = .status c) (h2 : 400 ≤ c)
    (h3 : tries2 0 = .transportErr) (h4 : tries2 1 = .status 200)
    (h5 : ∀ i, tries3 i = .status 404) :
    oa_get_with_retry tries = (.error (.statusError c), 1) ∧
    oa_get_with_retry tries2 = (.ok 200, 2) ∧
    pubmed_esearch_retry tries3 = (.error (.statusError 404), 3) := by
  have hb0 : httpAttempt tries 0 = .error (.statusError c) := by
    simp only [httpAttempt, h1]
    rw [if_pos h2]
  have hc0 : httpAttempt tries2 0 = .error .requestError := by
    simp only [httpAttempt, h3]
  have hc1 : httpAttempt tries2 1 = .ok 200 := by
    simp only [httpAttempt, h4]
    decide
  have hd : ∀ i, httpAttempt tries3 i = .error (.statusError 404) := by
    intro i
    simp only [httpAttempt, h5 i]
    decide
  refine ⟨?_, ?_, ?_⟩
  · show tenacityAux isRequestError (httpAttempt tries) 0 4 = _
    unfold tenacityAux
    rw [hb0]
    rfl
  · show tenacityAux isRequestError (httpAttempt tries2) 0 4 = _
    unfold tenacityAux
    rw [hc0]
    show tenacityAux isRequestError (httpAttempt tries2) 1 3 = _
    unfold tenacityAux
    rw [hc1]
  · show tenacityAux (fun _ => true) (httpAttempt tries3) 0 2 = _
    unfold tenacityAux
    rw [hd 0]
    show tenacityAux (fun _ => true) (httpAttempt tries3) 1 1 = _
    unfold tenacityAux
    rw [hd 1]
    show tenacityAux (fun _ => true) (httpAttempt tries3) 2 0 = _
    unfold tenacityAux
    rw [hd 2]

/-- Witness for C5: a constant-404 oracle, a transport-error-then-200
oracle, and a constant-404 oracle for the PubMed side. -/
theorem c5_witness :
    oa_get_with_retry (fun _ => .status 404) = (.error (.statusError 404), 1) ∧
    oa_get_with_retry (fun i => if i = 0 then .transportErr else .status 200) = (.ok 200, 2) ∧
    pubmed_esearch_retry (fun _ => .status 404) = (.error (.statusError 404), 3) :=
  c5_amended_retry_classification (fun _ => .status 404)
    (fun i => if i = 0 then .transportErr else .status 200) (fun _ => .status 404)
    404 rfl (by decide) rfl rfl (fun _ => rfl)

/-- C6: the extractor writes exactly the regular-file members whose
lowercased name ends in `.pdf` and whose name does not contain `s00`,
each to `output_dir/<containing directory>.pdf`, in member order
(provided, as `tarfile` guarantees for regular files, that every file
member has an extractable stream). -/
theorem c6_extraction_selects_exactly (members : List TarMember) (output_dir : List Char)
    (hc : ∀ m ∈ members, m.isfile = true → m.hasContent = true) :
    extract_pdfs_from_tar members output_dir =
      (members.filter (fun m => m.isfile && hasSuffixL (toLowerL m.name) pdfExt
          && !containsSub m.name s00Pat)).map
        (fun m => output_dir ++ '/' :: (pyDirname m.name ++ pdfExt)) := by
  unfold extract_pdfs_from_tar
  congr 1
  apply List.filter_congr
  intro m hm
  cases hfile : m.isfile
  · simp
  · simp [hc m hm hfile]

/-- Witness for C6: the claim's concrete scenario — an archive holding
`sub/article.pdf` and `sub/supplement_s001.pdf` yields exactly one
extracted file, written as `sub.pdf` under the output directory. -/
theorem c6_witness :
    extract_pdfs_from_tar
      [⟨true, "sub/article.pdf".toList, true⟩, ⟨true, "sub/supplement_s001.pdf".toList, true⟩]
      "out".toList = ["out/sub.pdf".toList] :=
  (c6_extraction_selects_exactly
    [⟨true, "sub/article.pdf".toList, true⟩, ⟨true, "sub/supplement_s001.pdf".toList, true⟩]
    "out".toList (by decide)).trans (by decide)

set_option maxRecDepth 4000 in
/-- C2 counterexample: two OA links, the first extracting zero PDFs and
the second yielding a local file.  The `len(paths[0]) < 1` check looks
only at the first link, so although the FTP strategy produced a local
file (`"pdfs/f2.pdf"`, last conjunct), the BioC-render strategy is still
invoked afterwards and — BioC having no text here — the result path is
null, discarding the fetched file.  This contradicts "once a strategy
yields a file, no subsequent strategy is invoked". -/
theorem c2_counterexample :
    try_fetch_pmc_fulltext_pdf (Option.some "1") Option.none 200 (.ok ("cc0", ["u1", "u2"]))
      c2FtpOracle ⟨Option.none, Option.none, false⟩ "pdfs" =
      (nullFetchResult, [Strat.lookup, Strat.ftp, Strat.biocRender]) ∧
    c2FtpOracle "u2" = .ok ["pdfs/f2.pdf"] ∧
    (["pdfs/f2.pdf"] : List String) ≠ [] := by decide

/-- C2 amended: the resolver tries its strategies in the fixed fallback
order but terminates based only on the FIRST link's download result: if
the first link's download produced at least one local file the resolver
returns immediately, carrying all per-link file lists, and the
BioC-render strategy is never invoked; if the first link's download
produced zero files, the BioC-render fallback is invoked even when a
later link already yielded a local file; and when the BioC fallback also
fails, the path stays null and the fetch task still returns the record
unchanged. -/
theorem c2_amended_first_link_decides
    (pmid pmcid : Option String) (lic : String) (urls : List String)
    (ftpDl : String → Except Unit (List String)) (bioc : BiocResult) (pdfDir : String)
    (r : Record) (paths : List (List String))
    (hid : (optTruthy pmid || optTruthy pmcid) = true)
    (hurls : urls ≠ [])
    (hgather : gatherExcept (urls.map ftpDl) = .ok paths) :
    (paths.headD [] ≠ [] →
      try_fetch_pmc_fulltext_pdf pmid pmcid 200 (.ok (lic, urls)) ftpDl bioc pdfDir =
        (⟨.listsv paths, Option.some lic, true⟩, [.lookup, .ftp])) ∧
    (paths.headD [] = [] →
      (try_fetch_pmc_fulltext_pdf pmid pmcid 200 (.ok (lic, urls)) ftpDl bioc pdfDir).2 =
        [.lookup, .ftp, .biocRender]) ∧
    (paths.headD [] = [] → bioc.full_text = Option.none →
      try_fetch_pmc_fulltext_pdf pmid pmcid 200 (.ok (lic, urls)) ftpDl bioc pdfDir =
        (nullFetchResult, [.lookup, .ftp, .biocRender]) ∧
      fetch_pmc_fulltext_task r nullFetchResult = .ok r) := by
  have hguard : ¬((!(optTruthy pmid || optTruthy pmcid)) = true) := by
    rw [hid]
    decide
  have h200 : ¬((200 : Nat) ≠ 200) := fun hne => hne rfl
  refine ⟨?_, ?_, ?_⟩
  · intro hp
    have hlen : ¬((paths.headD []).length < 1) := by
      intro hcon
      exact hp (List.eq_nil_of_length_eq_zero (by omega))
    simp only [try_fetch_pmc_fulltext_pdf]
    rw [if_neg hguard, if_neg h200]
    rw [if_neg hurls, hgather]
    dsimp only
    rw [if_neg hlen]
  · intro hp
    have hlen : (paths.headD []).length < 1 := by
      rw [hp]
      decide
    simp only [try_fetch_pmc_fulltext_pdf]
    rw [if_neg hguard, if_neg h200]
    rw [if_neg hurls, hgather]
    dsimp only
    rw [if_pos hlen]
    cases hb2 : bioc.full_text with
    | none => rfl
    | some t => rfl
  · intro hp hb
    have hlen : (paths.headD []).length < 1 := by
      rw [hp]
      decide
    refine ⟨?_, rfl⟩
    simp only [try_fetch_pmc_fulltext_pdf]
    rw [if_neg hguard, if_neg h200]
    rw [if_neg hurls, hgather]
    dsimp only
    rw [if_pos hlen, hb]

set_option maxRecDepth 4000 in
/-- Witness for C2: with one FTP link resolving to one file, the resolver
stops after `[lookup, ftp]`, carrying the path list — the BioC strategy
is never invoked. -/
theorem c2_witness :
    try_fetch_pmc_fulltext_pdf (Option.some "1") Option.none 200 (.ok ("cc0", ["ftp://u"]))
      (fun _ => .ok ["pdfs/f1.pdf"]) ⟨Option.none, Option.none, false⟩ "pdfs" =
      (⟨.listsv [["pdfs/f1.pdf"]], Option.some "cc0", true⟩, [Strat.lookup, Strat.ftp]) :=
  (c2_amended_first_link_decides (Option.some "1") Option.none "cc0" ["ftp://u"]
    (fun _ => .ok ["pdfs/f1.pdf"]) ⟨Option.none, Option.none, false⟩ "pdfs" {}
    [["pdfs/f1.pdf"]] (by decide) (by decide) (by decide)).1 (by decide)

/-- C7: in the generated-PDF branch the resolver stores the save path as a
plain string under `"path"`, and the caller's `res["path"][0][0]` then
yields the FIRST CHARACTER of that path, not the path: with
`pmcid = "PMC1"` and `PDF_DIR = "pdfs"` the record's `fulltext_path`
becomes `"p"` instead of `"pdfs/PMC1.pdf"`.  (On the archive branch, where
`"path"` is a list of per-URL path lists, the record correctly carries the
first file of the first list, as the last conjunct shows.) -/
theorem c7_render_branch_sets_first_char :
    (try_fetch_pmc_fulltext_pdf (Option.some "1") (Option.some "PMC1") 200
        (.ok ("cc-by", ["ftp://u1"])) (fun _ => .ok [])
        ⟨Option.some "text", Option.some "cc-by", true⟩ "pdfs").1 =
      ⟨.strv "pdfs/PMC1.pdf", Option.some "cc-by", true⟩ ∧
    fetch_pmc_fulltext_task { pmid := Option.some "1", pmcid := Option.some "PMC1" }
        ⟨.strv "pdfs/PMC1.pdf", Option.some "cc-by", true⟩ =
      .ok { pmid := Option.some "1", pmcid := Option.some "PMC1",
            fulltext_path := Option.some "p" } ∧
    ("p" : String) ≠ "pdfs/PMC1.pdf" ∧
    fetch_pmc_fulltext_task { pmid := Option.some "2" }
        ⟨.listsv [["a", "b"], ["c"]], Option.some "cc0", true⟩ =
      .ok { pmid := Option.some "2", fulltext_path := Option.some "a" } := by decide

/-- C9: when the direct HTTP block raises and the browser fetch inside the
`except` block also raises, the attempt swallows the second exception,
closes the browser context and the browser in the `finally`, and falls off
the end returning `None`; the tenacity wrapper sees a returned value, so
no retry happens and `None` crosses the boundary after one attempt; the
caller then stores `None` as the record's `fulltext_path`. -/
theorem c9_returns_none_after_cleanup
    (landing direct launch browserFetch : Nat → Except Unit Unit) (save_path : String)
    (r : Record)
    (h1 : landing 0 = .ok ()) (h2 : direct 0 = .error ())
    (h3 : launch 0 = .ok ()) (h4 : browserFetch 0 = .error ()) :
    download_pdf_attempt (landing 0) (direct 0) (launch 0) (browserFetch 0) save_path =
      ⟨.ok Option.none, true, true⟩ ∧
    download_pdf_async landing direct launch browserFetch save_path = (.ok Option.none, 1) ∧
    (download_openalex_pdf_task (fun _ => Option.none) r).fulltext_path = Option.none := by
  have hatt : download_pdf_attempt (landing 0) (direct 0) (launch 0) (browserFetch 0)
      save_path = ⟨.ok Option.none, true, true⟩ := by
    rw [h1, h2, h3, h4]
    rfl
  refine ⟨hatt, ?_, rfl⟩
  show tenacityAux (fun _ => true)
    (fun i => (download_pdf_attempt (landing i) (direct i) (launch i) (browserFetch i)
      save_path).result) 0 2 = _
  unfold tenacityAux
  simp only [hatt]

/-- Witness for C9: constant oracles that fail the direct path and the
browser fetch. -/
theorem c9_witness :
    download_pdf_async (fun _ => .ok ()) (fun _ => .error ()) (fun _ => .ok ())
      (fun _ => .error ()) "pdfs/W1.pdf" = (.ok Option.none, 1) :=
  (c9_returns_none_after_cleanup (fun _ => .ok ()) (fun _ => .error ()) (fun _ => .ok ())
    (fun _ => .error ()) "pdfs/W1.pdf" {} rfl rfl rfl rfl).2.1

end LiveDB
